import Mathlib

/-!
Verification of the array-writer scaling engine of nibabel
(src/nibabel/arraywriters.py).

The embedding models numpy dtypes as a kind (unsigned, signed, float,
complex, void) together with an item size in bytes.  Array data values and
the finite range supplied by the range oracle are exact rationals; the
sentinel pair (+inf, -inf) returned by finite_range when no element is
finite is modelled as Option.none.  Values stored through the slope / inter
property setters (which cast to the scaler dtype, default float32) are
modelled exactly, except for the two extreme behaviours of the IEEE cast:
magnitudes beyond the largest finite value of the scaler dtype overflow to
positive or negative infinity, and magnitudes at or below half the
smallest positive subnormal underflow to a (signed) zero, modelled as 0.
Rounding of in-range magnitudes between those thresholds is not modelled.
The extended precision (longdouble / exact-int) intermediates the source
uses for the range computation are modelled as exact rational arithmetic.
-/

namespace ArrayWriters

/-- Error taxonomy of the writer module.  The source raises WriterError
with distinct messages and the ScalingError / ValueError subclasses; each
raise site is mapped to one constructor:
cannotScale = WriterError in ArrayWriter.__init__,
incompatibleKinds = WriterError in scaling_needed for void kinds,
complexToReal = WriterError in scaling_needed for complex sources,
unsignedSpan = WriterError in SlopeArrayWriter._range_scale,
scalingError = ScalingError in SlopeInterArrayWriter._range_scale,
valueError = ValueError in make_array_writer. -/
inductive WErr where
  | cannotScale
  | incompatibleKinds
  | complexToReal
  | unsignedSpan
  | scalingError
  | valueError
deriving DecidableEq

/-- Numpy dtype kind characters used by the module: unsigned integer (u),
signed integer (i), floating point (f), complex (c), void / structured (v). -/
inductive NKind where
  | u
  | i
  | f
  | c
  | v
deriving DecidableEq

/-- A numpy dtype: kind plus item size in bytes. -/
structure DType where
  kind : NKind
  size : Nat
deriving DecidableEq

/-- Result of a computation that may raise a writer error. -/
inductive Res (α : Type) where
  | ok : α → Res α
  | err : WErr → Res α
deriving DecidableEq

/-- Section of the numpy safe-casting table for integer to float casts:
int8 and uint8 fit float16 and above, 16-bit integers fit float32 and
above, 32-bit integers fit float64, and numpy also accepts 64-bit integers
into float64. -/
def intToFloatOK (isize fsize : Nat) : Bool :=
  decide ((isize = 1 ∧ 2 ≤ fsize) ∨ (isize = 2 ∧ 4 ≤ fsize) ∨
          (isize = 4 ∧ 8 ≤ fsize) ∨ (isize = 8 ∧ fsize = 8))

/-- np.can_cast with the default safe casting rule, restricted to the kinds
modelled here.  Identical dtypes always cast (numpy casting level no),
which in particular makes np.can_cast true for a void dtype to itself. -/
def canCast (a b : DType) : Bool :=
  if a = b then true
  else
    match a.kind, b.kind with
    | .u, .u => decide (a.size ≤ b.size)
    | .u, .i => decide (a.size < b.size)
    | .i, .i => decide (a.size ≤ b.size)
    | .u, .f => intToFloatOK a.size b.size
    | .i, .f => intToFloatOK a.size b.size
    | .u, .c => intToFloatOK a.size (b.size / 2)
    | .i, .c => intToFloatOK a.size (b.size / 2)
    | .f, .f => decide (a.size ≤ b.size)
    | .f, .c => decide (2 * a.size ≤ b.size)
    | .c, .c => decide (a.size ≤ b.size)
    | _, _ => false

/-- np.iinfo(dtype).min as an exact rational: 0 for unsigned, minus 2 to
the bits-minus-one for signed.  Only meaningful for integer kinds. -/
def iMin (d : DType) : ℚ :=
  match d.kind with
  | .u => 0
  | .i => -(2 ^ (8 * d.size - 1))
  | _ => 0

/-- np.iinfo(dtype).max as an exact rational.  Only meaningful for integer
kinds. -/
def iMax (d : DType) : ℚ :=
  match d.kind with
  | .u => 2 ^ (8 * d.size) - 1
  | .i => 2 ^ (8 * d.size - 1) - 1
  | _ => 0

/-- Largest finite value of a floating dtype used as the scaler type:
65504 for float16, (2^53 - 1) * 2^971 for float64, and the float32 value
(2^24 - 1) * 2^104 otherwise (float32 is the default scaler dtype). -/
def fMax (d : DType) : ℚ :=
  if d.size = 2 then 65504
  else if d.size = 8 then (2 ^ 53 - 1) * 2 ^ 971
  else (2 ^ 24 - 1) * 2 ^ 104

/-- Underflow threshold of a floating dtype used as the scaler type: half
the smallest positive subnormal, i.e. 2^-25 for float16, 2^-1075 for
float64 and 2^-150 for the float32 default.  Under IEEE
round-to-nearest-even, a cast sends any magnitude at or below this
threshold to a (signed) zero and any magnitude above it to a nonzero
value. -/
def fTiny (d : DType) : ℚ :=
  if d.size = 2 then 1 / 2 ^ 25
  else if d.size = 8 then 1 / 2 ^ 1075
  else 1 / 2 ^ 150

/-- Modelled from the spec: casting.shared_range (the casting module is not
part of the sources provided) is described as the representable span of the
scaler precision type intersected with the target integer range table, so
it is modelled as the target integer range clipped to the largest finite
magnitude of the scaler dtype. -/
def sharedRange (scaler out : DType) : ℚ × ℚ :=
  (max (iMin out) (-(fMax scaler)), min (iMax out) (fMax scaler))

/-- A value held at scaler precision: a finite rational or an infinity
produced by overflow in the cast to the scaler dtype. -/
inductive FVal where
  | fin : ℚ → FVal
  | inf
  | ninf
deriving DecidableEq

/-- np.isfinite on a scaler value. -/
def isFinite : FVal → Bool
  | .fin _ => true
  | _ => false

/-- The slope / inter property setters: np.squeeze(scaler_dtype.type(val)).
Modelled as the exact value, with overflow to the infinities beyond the
largest finite scaler value and underflow to zero at or below half the
smallest positive subnormal of the scaler dtype (the signed zero of the
cast is modelled as 0); rounding of in-range magnitudes above the
underflow threshold is not modelled. -/
def toScaler (scaler : DType) (q : ℚ) : FVal :=
  if fMax scaler < q then .inf
  else if q < -(fMax scaler) then .ninf
  else if -(fTiny scaler) ≤ q ∧ q ≤ fTiny scaler then .fin 0
  else .fin q

/-- ArrayWriter.scaling_needed.  The finite range of the data is an input
(finite_range lives in volumeutils, outside the writer module): none is the
(+inf, -inf) no-finite-values sentinel, some (mn, mx) the finite range. -/
def scaling_needed (arr out : DType) (rng : Option (ℚ × ℚ)) : Res Bool :=
  if canCast arr out then .ok false
  else if arr.kind = .v ∨ out.kind = .v then .err .incompatibleKinds
  else if out.kind = .c then .ok false
  else if arr.kind = .c then .err .complexToReal
  else if out.kind = .f then .ok false
  else
    match rng with
    | none => .ok false
    | some (mn, mx) =>
      if mn = 0 ∧ mx = 0 then .ok false
      else if arr.kind = .f then .ok true
      else if iMin out ≤ mn ∧ mx ≤ iMax out then .ok false
      else .ok true

/-- SlopeArrayWriter._range_scale: returns the stored slope. -/
def sa_range_scale (scaler out : DType) (mn mx : ℚ) : Res FVal :=
  let sr := sharedRange scaler out
  if out.kind = .u then
    if mn < 0 ∧ 0 < mx then .err .unsignedSpan
    else if mx ≤ 0 then .ok (toScaler scaler (mn / sr.2))
    else .ok (toScaler scaler (mx / sr.2))
  else .ok (toScaler scaler (max (mx / sr.2) (mn / sr.1)))

/-- SlopeArrayWriter._do_scaling: slope is 1.0 on entry and branches that
return without assigning leave it at 1.0. -/
def sa_do_scaling (arr out scaler : DType) (mn mx : ℚ) : Res FVal :=
  if arr.kind = .f then sa_range_scale scaler out mn mx
  else if iMin out ≤ mn ∧ mx ≤ iMax out then .ok (.fin 1)
  else if out.kind = .u ∧ mx ≤ 0 ∧ |mn| ≤ (sharedRange scaler out).2 then
    .ok (toScaler scaler (-1))
  else sa_range_scale scaler out mn mx

/-- SlopeArrayWriter.calc_scale run from the freshly initialised state
(slope = 1.0, scale not yet calculated): returns the slope it leaves
behind.  scaling_needed never answers true on the sentinel range, so the
none arm of the inner match is unreachable. -/
def sa_calc (arr out scaler : DType) (rng : Option (ℚ × ℚ)) : Res FVal :=
  match scaling_needed arr out rng with
  | .err e => .err e
  | .ok false => .ok (.fin 1)
  | .ok true =>
    match rng with
    | none => .ok (.fin 1)
    | some (mn, mx) => sa_do_scaling arr out scaler mn mx

/-- SlopeInterArrayWriter._range_scale: takes the slope currently stored
(always 1.0 on the paths that reach it) and returns the stored
(slope, inter) pair.  mn2mx and the shared span are computed in exact
arithmetic, as the source does via as_int / int_to_float / longdouble. -/
def si_range_scale (scaler out : DType) (mn mx : ℚ) (slope0 : FVal) :
    Res (FVal × FVal) :=
  if mx = mn then .ok (slope0, toScaler scaler mn)
  else
    let sr := sharedRange scaler out
    let slope := (mx - mn) / (sr.2 - sr.1)
    let slopeS := toScaler scaler slope
    let interS := toScaler scaler (mn - sr.1 * slope)
    if isFinite slopeS && isFinite interS then .ok (slopeS, interS)
    else .err .scalingError

/-- SlopeInterArrayWriter._do_scaling from the freshly initialised state
(slope = 1.0, inter = 0.0).  The mn == inf guard of the source corresponds
to the sentinel range and is handled in si_calc. -/
def si_do_scaling (arr out scaler : DType) (mn mx : ℚ) : Res (FVal × FVal) :=
  if mn = 0 ∧ mx = 0 then .ok (.fin 1, .fin 0)
  else if arr.kind = .f then si_range_scale scaler out mn mx (.fin 1)
  else if iMin out ≤ mn ∧ mx ≤ iMax out then .ok (.fin 1, .fin 0)
  else if out.kind = .u then
    if mx - mn ≤ (sharedRange scaler out).2 then .ok (.fin 1, toScaler scaler mn)
    else if mx ≤ 0 ∧ |mn| ≤ (sharedRange scaler out).2 then
      .ok (toScaler scaler (-1), .fin 0)
    else si_range_scale scaler out mn mx (.fin 1)
  else si_range_scale scaler out mn mx (.fin 1)

/-- SlopeInterArrayWriter.calc_scale from the freshly initialised state:
returns the (slope, inter) pair it leaves behind. -/
def si_calc (arr out scaler : DType) (rng : Option (ℚ × ℚ)) :
    Res (FVal × FVal) :=
  match scaling_needed arr out rng with
  | .err e => .err e
  | .ok false => .ok (.fin 1, .fin 0)
  | .ok true =>
    match rng with
    | none => .ok (.fin 1, .fin 0)
    | some (mn, mx) => si_do_scaling arr out scaler mn mx

/-- ArrayWriter._writing_range: the thresholding bounds passed to
array_to_file by to_fileobj.  none models the (None, None) answer. -/
def writing_range (arr out : DType) (rng : Option (ℚ × ℚ)) :
    Option (ℚ × ℚ) :=
  if (out.kind = .i ∨ out.kind = .u) ∧ arr.kind = .f then
    match rng with
    | none => some (0, 0)
    | some p => some p
  else none

/-- The class make_array_writer instantiates. -/
inductive WriterChoice where
  | plainWriter
  | slopeWriter
  | slopeInterWriter
deriving DecidableEq

/-- make_array_writer: the capability check compares with the Python
booleans by equality (True equals the integer 1, False equals 0) and then
branches on truthiness.  has_intercept and has_slope are modelled as Python
integers, of which the booleans are the values 1 and 0. -/
def make_array_writer (has_intercept has_slope : ℤ) : Res WriterChoice :=
  if has_intercept = 1 ∧ has_slope = 0 then .err .valueError
  else if has_intercept ≠ 0 then .ok .slopeInterWriter
  else if has_slope ≠ 0 then .ok .slopeWriter
  else .ok .plainWriter

/-! Helper lemmas. -/

lemma fMax_pos (d : DType) : 0 < fMax d := by
  unfold fMax
  split_ifs <;> norm_num

lemma fTiny_lt_one (d : DType) : fTiny d < 1 := by
  unfold fTiny
  split_ifs <;> norm_num

lemma fTiny_lt_inv (d : DType) : fTiny d < 1 / (2 * fMax d) := by
  unfold fTiny fMax
  split_ifs <;> norm_num

lemma iMax_pos (out : DType) (hk : out.kind = .i ∨ out.kind = .u)
    (hsz : 0 < out.size) : 0 < iMax out := by
  rcases hk with h | h <;> simp only [iMax, h] <;>
    · rw [sub_pos]
      exact one_lt_pow₀ (by norm_num) (by omega)

lemma iMax_nonneg_u (out : DType) (hk : out.kind = .u) : 0 ≤ iMax out := by
  simp only [iMax, hk]
  rw [sub_nonneg]
  exact one_le_pow₀ (by norm_num)

lemma sharedMax_pos (scaler out : DType) (hk : out.kind = .i ∨ out.kind = .u)
    (hsz : 0 < out.size) : 0 < (sharedRange scaler out).2 := by
  have h : (sharedRange scaler out).2 = min (iMax out) (fMax scaler) := rfl
  rw [h]
  exact lt_min (iMax_pos out hk hsz) (fMax_pos scaler)

lemma sharedMin_nonpos (scaler out : DType)
    (hk : out.kind = .i ∨ out.kind = .u) : (sharedRange scaler out).1 ≤ 0 := by
  have h : (sharedRange scaler out).1 = max (iMin out) (-(fMax scaler)) := rfl
  rw [h]
  refine max_le ?_ (neg_nonpos.mpr (fMax_pos scaler).le)
  rcases hk with h2 | h2 <;> simp only [iMin, h2]
  · exact neg_nonpos.mpr (by positivity)
  · exact le_refl 0

lemma sharedMin_neg_i (scaler out : DType) (hk : out.kind = .i) :
    (sharedRange scaler out).1 < 0 := by
  have h : (sharedRange scaler out).1 = max (iMin out) (-(fMax scaler)) := rfl
  rw [h]
  refine max_lt ?_ (neg_neg_iff_pos.mpr (fMax_pos scaler))
  simp only [iMin, hk]
  exact neg_neg_iff_pos.mpr (by positivity)

lemma sharedMax_le_fMax (scaler out : DType) :
    (sharedRange scaler out).2 ≤ fMax scaler := min_le_right _ _

lemma neg_fMax_le_sharedMin (scaler out : DType) :
    -(fMax scaler) ≤ (sharedRange scaler out).1 := le_max_right _ _

lemma toScaler_ne_fin_zero (scaler : DType) (q : ℚ) (hq : q ≠ 0)
    (hbig : fTiny scaler < |q|) : toScaler scaler q ≠ .fin 0 := by
  unfold toScaler
  split_ifs with h1 h2 h3
  · simp
  · simp
  · exact absurd (abs_le.mpr h3) (not_le.mpr hbig)
  · simp [hq]

lemma toScaler_ne_fin_zero_of_inv (scaler : DType) (q : ℚ) (hq : q ≠ 0)
    (hbig : 1 / (2 * fMax scaler) ≤ |q|) : toScaler scaler q ≠ .fin 0 :=
  toScaler_ne_fin_zero scaler q hq (lt_of_lt_of_le (fTiny_lt_inv scaler) hbig)

lemma div_sharedMax_big (scaler out : DType) (v : ℚ) (hv : 1 ≤ |v|)
    (hk : out.kind = .i ∨ out.kind = .u) (hsz : 0 < out.size) :
    1 / (2 * fMax scaler) ≤ |v / (sharedRange scaler out).2| := by
  have hs := sharedMax_pos scaler out hk hsz
  have hle := sharedMax_le_fMax scaler out
  have hf := fMax_pos scaler
  have hstep : 2 * fMax scaler ≤ |v| * (2 * fMax scaler) :=
    le_mul_of_one_le_left (by linarith) hv
  rw [abs_div, abs_of_pos hs, div_le_div_iff₀ (by linarith) hs]
  linarith

lemma div_sharedMin_big (scaler out : DType) (v : ℚ) (hv : 1 ≤ |v|)
    (hneg : (sharedRange scaler out).1 < 0) :
    1 / (2 * fMax scaler) ≤ |v / (sharedRange scaler out).1| := by
  have habs : |(sharedRange scaler out).1| ≤ fMax scaler := by
    rw [abs_of_neg hneg]
    have := neg_fMax_le_sharedMin scaler out
    linarith
  have hpos : 0 < |(sharedRange scaler out).1| := abs_pos.mpr hneg.ne
  have hf := fMax_pos scaler
  have hstep : 2 * fMax scaler ≤ |v| * (2 * fMax scaler) :=
    le_mul_of_one_le_left (by linarith) hv
  rw [abs_div, div_le_div_iff₀ (by linarith) hpos]
  linarith

lemma kind_iu_of_not (k : NKind) (h1 : k ≠ .v) (h2 : k ≠ .c) (h3 : k ≠ .f) :
    k = .i ∨ k = .u := by
  cases k <;> simp_all

lemma scaling_needed_true_facts (arr out : DType) (mn mx : ℚ)
    (h : scaling_needed arr out (some (mn, mx)) = .ok true) :
    ¬(mn = 0 ∧ mx = 0) ∧ (out.kind = .i ∨ out.kind = .u) := by
  simp only [scaling_needed] at h
  split_ifs at h with hcc hv hc1 hc2 hf h00 haf hir <;>
    first
      | exact ⟨h00, kind_iu_of_not out.kind (fun hk => hv (Or.inr hk)) hc1 hf⟩
      | simp at h

lemma range_not_zero_cases (mn mx : ℚ) (hle : mn ≤ mx)
    (h00 : ¬(mn = 0 ∧ mx = 0)) : mn < 0 ∨ 0 < mx := by
  by_contra hcon
  push_neg at hcon
  obtain ⟨h1, h2⟩ := hcon
  exact h00 ⟨le_antisymm (hle.trans h2) h1, le_antisymm h2 (h1.trans hle)⟩

lemma sa_range_scale_ne_zero (scaler out : DType) (mn mx : ℚ) (a b : ℤ)
    (hma : mn = (a : ℚ)) (hmb : mx = (b : ℚ)) (hle : mn ≤ mx)
    (h00 : ¬(mn = 0 ∧ mx = 0)) (hk : out.kind = .i ∨ out.kind = .u)
    (hsz : 0 < out.size) (s : FVal)
    (h : sa_range_scale scaler out mn mx = .ok s) : s ≠ .fin 0 := by
  have hsmax := sharedMax_pos scaler out hk hsz
  simp only [sa_range_scale] at h
  split_ifs at h with hu hspan hmx0
  · injection h with h2
    subst h2
    have hmn : mn ≠ 0 := by
      intro h0
      rw [h0] at hle
      exact h00 ⟨h0, le_antisymm hmx0 hle⟩
    have habs : 1 ≤ |mn| := by
      have ha0 : a ≠ 0 := by
        rw [hma] at hmn
        exact_mod_cast hmn
      rw [hma]
      exact_mod_cast Int.one_le_abs ha0
    exact toScaler_ne_fin_zero_of_inv scaler _ (div_ne_zero hmn hsmax.ne')
      (div_sharedMax_big scaler out mn habs hk hsz)
  · injection h with h2
    subst h2
    push_neg at hmx0
    have habs : 1 ≤ |mx| := by
      have hb0 : b ≠ 0 := by
        rw [hmb] at hmx0
        exact_mod_cast hmx0.ne'
      rw [hmb]
      exact_mod_cast Int.one_le_abs hb0
    exact toScaler_ne_fin_zero_of_inv scaler _ (div_ne_zero hmx0.ne' hsmax.ne')
      (div_sharedMax_big scaler out mx habs hk hsz)
  · injection h with h2
    subst h2
    have hsmin := sharedMin_neg_i scaler out (hk.resolve_right hu)
    have key : 0 < max (mx / (sharedRange scaler out).2)
          (mn / (sharedRange scaler out).1) ∧
        1 / (2 * fMax scaler) ≤ max (mx / (sharedRange scaler out).2)
          (mn / (sharedRange scaler out).1) := by
      rcases range_not_zero_cases mn mx hle h00 with hmn | hmx
      · have habs : 1 ≤ |mn| := by
          have ha0 : a ≠ 0 := by
            rw [hma] at hmn
            exact_mod_cast hmn.ne
          rw [hma]
          exact_mod_cast Int.one_le_abs ha0
        have hBpos : 0 < mn / (sharedRange scaler out).1 :=
          div_pos_iff.mpr (Or.inr ⟨hmn, hsmin⟩)
        have hBbig := div_sharedMin_big scaler out mn habs hsmin
        rw [abs_of_pos hBpos] at hBbig
        exact ⟨lt_max_iff.mpr (Or.inr hBpos), hBbig.trans (le_max_right _ _)⟩
      · have habs : 1 ≤ |mx| := by
          have hb0 : b ≠ 0 := by
            rw [hmb] at hmx
            exact_mod_cast hmx.ne'
          rw [hmb]
          exact_mod_cast Int.one_le_abs hb0
        have hApos : 0 < mx / (sharedRange scaler out).2 := div_pos hmx hsmax
        have hAbig := div_sharedMax_big scaler out mx habs hk hsz
        rw [abs_of_pos hApos] at hAbig
        exact ⟨lt_max_iff.mpr (Or.inl hApos), hAbig.trans (le_max_left _ _)⟩
    exact toScaler_ne_fin_zero_of_inv scaler _ key.1.ne'
      (by rw [abs_of_pos key.1]; exact key.2)

lemma sa_do_scaling_ne_zero (arr out scaler : DType) (mn mx : ℚ) (a b : ℤ)
    (hma : mn = (a : ℚ)) (hmb : mx = (b : ℚ)) (hle : mn ≤ mx)
    (h00 : ¬(mn = 0 ∧ mx = 0)) (hk : out.kind = .i ∨ out.kind = .u)
    (hsz : 0 < out.size) (s : FVal)
    (h : sa_do_scaling arr out scaler mn mx = .ok s) : s ≠ .fin 0 := by
  simp only [sa_do_scaling] at h
  split_ifs at h with hf hir hflip
  · exact sa_range_scale_ne_zero scaler out mn mx a b hma hmb hle h00 hk hsz s h
  · injection h with h2
    subst h2
    simp
  · injection h with h2
    subst h2
    refine toScaler_ne_fin_zero scaler _ (by norm_num) ?_
    rw [abs_neg, abs_one]
    exact fTiny_lt_one scaler
  · exact sa_range_scale_ne_zero scaler out mn mx a b hma hmb hle h00 hk hsz s h

lemma sa_calc_ne_zero (arr out scaler : DType) (rng : Option (ℚ × ℚ))
    (hr : ∀ p : ℚ × ℚ, rng = some p →
      p.1 ≤ p.2 ∧ (∃ a : ℤ, p.1 = (a : ℚ)) ∧ ∃ b : ℤ, p.2 = (b : ℚ))
    (hsz : 0 < out.size)
    (s : FVal) (h : sa_calc arr out scaler rng = .ok s) : s ≠ .fin 0 := by
  unfold sa_calc at h
  rcases hsn : scaling_needed arr out rng with b0 | e
  · rw [hsn] at h
    cases b0
    · simp only at h
      injection h with h2
      subst h2
      simp
    · rcases rng with _ | ⟨mn, mx⟩
      · simp only at h
        injection h with h2
        subst h2
        simp
      · simp only at h
        obtain ⟨h00, hk⟩ := scaling_needed_true_facts arr out mn mx hsn
        obtain ⟨hle, ⟨a, ha⟩, ⟨b, hb⟩⟩ := hr (mn, mx) rfl
        exact sa_do_scaling_ne_zero arr out scaler mn mx a b ha hb hle
          h00 hk hsz s h
  · rw [hsn] at h
    simp at h

lemma si_range_scale_slope_ne_zero (scaler out : DType) (mn mx : ℚ) (a b : ℤ)
    (hma : mn = (a : ℚ)) (hmb : mx = (b : ℚ)) (hle : mn ≤ mx)
    (hk : out.kind = .i ∨ out.kind = .u) (hsz : 0 < out.size)
    (s i : FVal) (h : si_range_scale scaler out mn mx (.fin 1) = .ok (s, i)) :
    s ≠ .fin 0 := by
  simp only [si_range_scale] at h
  split_ifs at h with heq hfin
  · injection h with h2
    obtain ⟨h3, h4⟩ := Prod.mk.inj h2
    subst h3
    simp
  · injection h with h2
    obtain ⟨h3, h4⟩ := Prod.mk.inj h2
    subst h3
    have hlt : mn < mx := lt_of_le_of_ne hle (fun hc => heq hc.symm)
    have hden : 0 < (sharedRange scaler out).2 - (sharedRange scaler out).1 :=
      sub_pos.mpr (lt_of_le_of_lt (sharedMin_nonpos scaler out hk)
        (sharedMax_pos scaler out hk hsz))
    have hd1 : 1 ≤ mx - mn := by
      have hab : a < b := by
        rw [hma, hmb] at hlt
        exact_mod_cast hlt
      have h1 : (1 : ℤ) ≤ b - a := by omega
      rw [hma, hmb]
      exact_mod_cast h1
    have hq_pos : 0 < (mx - mn) /
        ((sharedRange scaler out).2 - (sharedRange scaler out).1) :=
      div_pos (by linarith) hden
    have hden_le : (sharedRange scaler out).2 - (sharedRange scaler out).1 ≤
        2 * fMax scaler := by
      have h1 := sharedMax_le_fMax scaler out
      have h2 := neg_fMax_le_sharedMin scaler out
      linarith
    have hf := fMax_pos scaler
    have hbig : 1 / (2 * fMax scaler) ≤ (mx - mn) /
        ((sharedRange scaler out).2 - (sharedRange scaler out).1) := by
      rw [div_le_div_iff₀ (by linarith) hden]
      have hstep : 2 * fMax scaler ≤ (mx - mn) * (2 * fMax scaler) :=
        le_mul_of_one_le_left (by linarith) hd1
      linarith
    exact toScaler_ne_fin_zero_of_inv scaler _ hq_pos.ne'
      (by rw [abs_of_pos hq_pos]; exact hbig)

lemma si_do_scaling_slope_ne_zero (arr out scaler : DType) (mn mx : ℚ)
    (a b : ℤ) (hma : mn = (a : ℚ)) (hmb : mx = (b : ℚ)) (hle : mn ≤ mx)
    (hk : out.kind = .i ∨ out.kind = .u) (hsz : 0 < out.size)
    (s i : FVal) (h : si_do_scaling arr out scaler mn mx = .ok (s, i)) :
    s ≠ .fin 0 := by
  simp only [si_do_scaling] at h
  split_ifs at h with h00 hf hir hu hofs hflip
  · injection h with h2
    obtain ⟨h3, h4⟩ := Prod.mk.inj h2
    subst h3
    simp
  · exact si_range_scale_slope_ne_zero scaler out mn mx a b hma hmb hle
      hk hsz s i h
  · injection h with h2
    obtain ⟨h3, h4⟩ := Prod.mk.inj h2
    subst h3
    simp
  · injection h with h2
    obtain ⟨h3, h4⟩ := Prod.mk.inj h2
    subst h3
    simp
  · injection h with h2
    obtain ⟨h3, h4⟩ := Prod.mk.inj h2
    subst h3
    refine toScaler_ne_fin_zero scaler _ (by norm_num) ?_
    rw [abs_neg, abs_one]
    exact fTiny_lt_one scaler
  · exact si_range_scale_slope_ne_zero scaler out mn mx a b hma hmb hle
      hk hsz s i h
  · exact si_range_scale_slope_ne_zero scaler out mn mx a b hma hmb hle
      hk hsz s i h

lemma si_calc_slope_ne_zero (arr out scaler : DType) (rng : Option (ℚ × ℚ))
    (hr : ∀ p : ℚ × ℚ, rng = some p →
      p.1 ≤ p.2 ∧ (∃ a : ℤ, p.1 = (a : ℚ)) ∧ ∃ b : ℤ, p.2 = (b : ℚ))
    (hsz : 0 < out.size)
    (p : FVal × FVal) (h : si_calc arr out scaler rng = .ok p) :
    p.1 ≠ .fin 0 := by
  unfold si_calc at h
  rcases hsn : scaling_needed arr out rng with b0 | e
  · rw [hsn] at h
    cases b0
    · simp only at h
      injection h with h2
      subst h2
      simp
    · rcases rng with _ | ⟨mn, mx⟩
      · simp only at h
        injection h with h2
        subst h2
        simp
      · simp only at h
        obtain ⟨h00, hk⟩ := scaling_needed_true_facts arr out mn mx hsn
        obtain ⟨hle, ⟨a, ha⟩, ⟨b, hb⟩⟩ := hr (mn, mx) rfl
        obtain ⟨s, i⟩ := p
        exact si_do_scaling_slope_ne_zero arr out scaler mn mx a b ha hb hle
          hk hsz s i h
  · rw [hsn] at h
    simp at h

lemma iMin_u (out : DType) (hb : out.kind = .u) : iMin out = 0 := by
  simp [iMin, hb]

lemma canCast_to_u_false (arr out : DType)
    (ha : arr.kind = .i ∨ arr.kind = .f) (hb : out.kind = .u) :
    canCast arr out = false := by
  obtain ⟨ak, asz⟩ := arr
  obtain ⟨bk, bsz⟩ := out
  simp only at ha hb
  subst hb
  rcases ha with h | h <;> subst h <;> simp [canCast, DType.mk.injEq]

lemma scaling_needed_int_range_aux (arr out : DType) (mn mx : ℚ)
    (ha : arr.kind = .i ∨ arr.kind = .u) (hb : out.kind = .i ∨ out.kind = .u)
    (hc : canCast arr out = false) (h00 : ¬(mn = 0 ∧ mx = 0)) :
    scaling_needed arr out (some (mn, mx)) =
      .ok (if iMin out ≤ mn ∧ mx ≤ iMax out then false else true) := by
  have hav : ¬(arr.kind = .v ∨ out.kind = .v) := by
    rcases ha with h | h <;> rcases hb with h2 | h2 <;> simp [h, h2]
  have hoc : ¬out.kind = .c := by rcases hb with h | h <;> simp [h]
  have hac : ¬arr.kind = .c := by rcases ha with h | h <;> simp [h]
  have hof : ¬out.kind = .f := by rcases hb with h | h <;> simp [h]
  have haf : ¬arr.kind = .f := by rcases ha with h | h <;> simp [h]
  unfold scaling_needed
  rw [if_neg (by simp [hc]), if_neg hav, if_neg hoc, if_neg hac, if_neg hof]
  show (if mn = 0 ∧ mx = 0 then _ else _) = _
  rw [if_neg h00, if_neg haf]
  split_ifs with h5 <;> rfl

/-! Claim theorems. -/

/-- Claim C1 counterexample: a float64 array constant at 2^-996 written to
int8 by a SlopeArrayWriter with the default float32 scaler completes
calc_scale and stores slope == 0: the computed slope 2^-996 / 127
underflows the float32 cast of the slope setter, and
SlopeArrayWriter._range_scale has no zero or finiteness check, so no
ScalingError (nor any other error) is raised. -/
theorem sa_tiny_float_slope_zero :
    sa_calc ⟨.f, 8⟩ ⟨.i, 1⟩ ⟨.f, 4⟩ (some (1 / 2 ^ 996, 1 / 2 ^ 996)) =
      .ok (.fin 0) := by
  norm_num [sa_calc, scaling_needed, canCast, intToFloatOK, sa_do_scaling,
    sa_range_scale, sharedRange, iMin, iMax, fMax, fTiny, toScaler, max_def,
    min_def]
  rfl

/-- Claim C1 amended: for every input whose finite range consists of
integer values (in particular for every array of integer element kind,
whose range oracle returns integers), a completing SlopeArrayWriter or
SlopeInterArrayWriter scale computation stores a nonzero slope: every
candidate slope then has magnitude at least 1 / (2 * fMax), above the
underflow threshold of the scaler cast.  For floating-point sources the
guarantee fails: an exact slope at or below half the smallest subnormal of
the scaler dtype underflows to zero and calc_scale completes with
slope == 0 and no error, there being no zero or finiteness check on this
path. -/
theorem slope_nonzero_integer_range (arr out scaler : DType)
    (rng : Option (ℚ × ℚ))
    (hr : ∀ p : ℚ × ℚ, rng = some p →
      p.1 ≤ p.2 ∧ (∃ a : ℤ, p.1 = (a : ℚ)) ∧ ∃ b : ℤ, p.2 = (b : ℚ))
    (hsz : 0 < out.size) :
    (∀ s : FVal, sa_calc arr out scaler rng = .ok s → s ≠ .fin 0) ∧
    (∀ p : FVal × FVal, si_calc arr out scaler rng = .ok p → p.1 ≠ .fin 0) :=
  ⟨fun s h => sa_calc_ne_zero arr out scaler rng hr hsz s h,
   fun p h => si_calc_slope_ne_zero arr out scaler rng hr hsz p h⟩

/-- Claim C1 witness: a completed slope-only computation, int16 range
(0, 1000) into uint8, ending with the nonzero slope 1000/255. -/
theorem slope_nonzero_integer_range_witness :
    sa_calc ⟨.i, 2⟩ ⟨.u, 1⟩ ⟨.f, 4⟩ (some (0, 1000)) = .ok (.fin (200 / 51)) ∧
    FVal.fin (200 / 51) ≠ FVal.fin 0 :=
  ⟨by
    norm_num [sa_calc, scaling_needed, canCast, intToFloatOK, sa_do_scaling,
      sa_range_scale, sharedRange, iMin, iMax, fMax, fTiny, toScaler, max_def,
      min_def]
    rfl,
   (slope_nonzero_integer_range ⟨.i, 2⟩ ⟨.u, 1⟩ ⟨.f, 4⟩ (some (0, 1000))
      (fun p hp => by
        injection hp with h2
        subst h2
        exact ⟨by decide, ⟨0, by norm_num⟩, ⟨1000, by norm_num⟩⟩)
      (by decide)).1
     (.fin (200 / 51))
     (by
       norm_num [sa_calc, scaling_needed, canCast, intToFloatOK, sa_do_scaling,
         sa_range_scale, sharedRange, iMin, iMax, fMax, fTiny, toScaler,
         max_def, min_def]
       rfl)⟩

/-- Claim C2 counterexample: the uint8 range (0, 255) written to int8 by a
slope-only writer does not get slope 2.0; the computed slope is 255/127. -/
theorem uint8_span_255_slope_not_two :
    sa_calc ⟨.u, 1⟩ ⟨.i, 1⟩ ⟨.f, 4⟩ (some (0, 255)) ≠ .ok (.fin 2) := by
  intro h
  rw [show sa_calc ⟨.u, 1⟩ ⟨.i, 1⟩ ⟨.f, 4⟩ (some (0, 255)) =
        .ok (.fin (255 / 127)) from by
      norm_num [sa_calc, scaling_needed, canCast, intToFloatOK, sa_do_scaling,
        sa_range_scale, sharedRange, iMin, iMax, fMax, fTiny, toScaler, max_def,
        min_def]
      rfl] at h
  injection h with h2
  injection h2 with h3
  norm_num at h3

/-- Claim C2 amended: for the uint8 range (0, 255) written to int8 by a
slope-only writer with the default 32-bit scaler type, calc_scale sets the
slope to 255/127 (about 2.008, the value 2.0 arises for the range (0, 254)
used by the doctest of the source). -/
theorem uint8_span_255_slope_value :
    sa_calc ⟨.u, 1⟩ ⟨.i, 1⟩ ⟨.f, 4⟩ (some (0, 255)) = .ok (.fin (255 / 127)) := by
  norm_num [sa_calc, scaling_needed, canCast, intToFloatOK, sa_do_scaling,
    sa_range_scale, sharedRange, iMin, iMax, fMax, fTiny, toScaler, max_def, min_def]
  rfl

/-- Claim C3: for integer source and integer target kinds on which numpy
casting is not lossless and whose finite range is neither (0, 0) nor the
sentinel, scaling_needed answers false exactly when the range lies inside
the target integer range table, and true otherwise. -/
theorem scaling_needed_int_to_int_range (arr out : DType) (mn mx : ℚ)
    (ha : arr.kind = .i ∨ arr.kind = .u) (hb : out.kind = .i ∨ out.kind = .u)
    (hc : canCast arr out = false) (h00 : ¬(mn = 0 ∧ mx = 0)) :
    scaling_needed arr out (some (mn, mx)) =
      .ok (if iMin out ≤ mn ∧ mx ≤ iMax out then false else true) :=
  scaling_needed_int_range_aux arr out mn mx ha hb hc h00

/-- Claim C3 witness: int16 range (-1, 5) into uint8. -/
theorem scaling_needed_int_to_int_range_witness :
    scaling_needed ⟨.i, 2⟩ ⟨.u, 1⟩ (some (-1, 5)) =
      .ok (if iMin ⟨.u, 1⟩ ≤ (-1 : ℚ) ∧ (5 : ℚ) ≤ iMax ⟨.u, 1⟩
           then false else true) :=
  scaling_needed_int_to_int_range ⟨.i, 2⟩ ⟨.u, 1⟩ (-1) 5 (Or.inl rfl)
    (Or.inr rfl) (by decide) (by decide)

/-- Claim C4 counterexample: a float64 array constant at 2 to the 130,
written to int8, completes calc_scale without raising, yet the stored
intercept is infinite: the single-value branch of _range_scale assigns
inter = mn through the float32 setter (which overflows to infinity) and
returns before the finiteness check. -/
theorem si_constant_huge_inter_not_finite :
    si_calc ⟨.f, 8⟩ ⟨.i, 1⟩ ⟨.f, 4⟩ (some (2 ^ 130, 2 ^ 130)) =
      .ok (.fin 1, .inf) ∧ isFinite FVal.inf = false :=
  ⟨by
    norm_num [si_calc, scaling_needed, canCast, intToFloatOK, si_do_scaling,
      si_range_scale, sharedRange, iMin, iMax, fMax, fTiny, toScaler, isFinite,
      max_def, min_def]
    rfl, rfl⟩

/-- Claim C4 amended: in the general branch of the range-based computation
of SlopeInterArrayWriter (mx different from mn), slope and inter are both
finite whenever the computation completes, and a non-finite slope or inter
fails with ScalingError; the single-value branch (mx equal to mn) stores
inter = mn with no finiteness check and may leave a non-finite inter. -/
theorem si_range_scale_general_finite_or_error (scaler out : DType)
    (mn mx : ℚ) (s0 : FVal) (hne : mx ≠ mn) :
    (∃ s i, si_range_scale scaler out mn mx s0 = .ok (s, i) ∧
        isFinite s = true ∧ isFinite i = true) ∨
    si_range_scale scaler out mn mx s0 = .err .scalingError := by
  simp only [si_range_scale, if_neg hne]
  split
  · rename_i hfin
    rw [Bool.and_eq_true] at hfin
    exact Or.inl ⟨_, _, rfl, hfin.1, hfin.2⟩
  · exact Or.inr rfl

/-- Claim C4 witness: the general branch on the range (0, 255) into int8
with the float32 scaler. -/
theorem si_range_scale_general_finite_or_error_witness :
    (∃ s i, si_range_scale ⟨.f, 4⟩ ⟨.i, 1⟩ 0 255 (.fin 1) = .ok (s, i) ∧
        isFinite s = true ∧ isFinite i = true) ∨
    si_range_scale ⟨.f, 4⟩ ⟨.i, 1⟩ 0 255 (.fin 1) = .err .scalingError :=
  si_range_scale_general_finite_or_error ⟨.f, 4⟩ ⟨.i, 1⟩ 0 255 (.fin 1)
    (by decide)

/-- Claim C5: integer source, unsigned integer target, scaling needed and
the range not already inside the target range: when the exact difference
mx - mn is at most the shared maximum, SlopeInterArrayWriter.calc_scale
sets inter = mn (through the scaler setter) and leaves slope = 1. -/
theorem si_offset_preferred (arr out scaler : DType) (mn mx : ℚ)
    (ha : arr.kind = .i ∨ arr.kind = .u) (hb : out.kind = .u)
    (hc : canCast arr out = false)
    (hir : ¬(iMin out ≤ mn ∧ mx ≤ iMax out))
    (hfit : mx - mn ≤ (sharedRange scaler out).2) :
    si_calc arr out scaler (some (mn, mx)) = .ok (.fin 1, toScaler scaler mn) := by
  have h00 : ¬(mn = 0 ∧ mx = 0) := by
    rintro ⟨rfl, rfl⟩
    exact hir ⟨by simp [iMin, hb], iMax_nonneg_u out hb⟩
  have hsn : scaling_needed arr out (some (mn, mx)) = .ok true := by
    rw [scaling_needed_int_range_aux arr out mn mx ha (Or.inr hb) hc h00,
      if_neg hir]
  have haf : ¬arr.kind = .f := by rcases ha with h | h <;> simp [h]
  unfold si_calc
  rw [hsn]
  show si_do_scaling arr out scaler mn mx = _
  unfold si_do_scaling
  rw [if_neg h00, if_neg haf, if_neg hir, if_pos hb, if_pos hfit]

/-- Claim C5 witness: int16 range (-10, 100) into uint8 yields the pure
offset inter = -10 with slope 1. -/
theorem si_offset_preferred_witness :
    si_calc ⟨.i, 2⟩ ⟨.u, 1⟩ ⟨.f, 4⟩ (some (-10, 100)) =
      .ok (.fin 1, toScaler ⟨.f, 4⟩ (-10)) :=
  si_offset_preferred ⟨.i, 2⟩ ⟨.u, 1⟩ ⟨.f, 4⟩ (-10) 100 (Or.inl rfl) rfl
    (by decide) (by norm_num [iMin, iMax])
    (by norm_num [sharedRange, iMin, iMax, fMax, min_def])

/-- Claim C6: a slope-only writer with an unsigned integer target whose
finite range straddles zero fails with the unsigned-span WriterError and
never produces a slope (integer or float source kind; unsigned sources
cannot have a negative minimum and complex or void sources fail earlier
with a different error). -/
theorem sa_unsigned_span_error (arr out scaler : DType) (mn mx : ℚ)
    (ha : arr.kind = .i ∨ arr.kind = .f) (hb : out.kind = .u)
    (hmn : mn < 0) (hmx : 0 < mx) :
    sa_calc arr out scaler (some (mn, mx)) = .err .unsignedSpan := by
  have hc := canCast_to_u_false arr out ha hb
  have h00 : ¬(mn = 0 ∧ mx = 0) := by
    rintro ⟨rfl, -⟩
    exact absurd hmn (lt_irrefl 0)
  have hav : ¬(arr.kind = .v ∨ out.kind = .v) := by
    rcases ha with h | h <;> simp [h, hb]
  have hoc : ¬out.kind = .c := by simp [hb]
  have hac : ¬arr.kind = .c := by rcases ha with h | h <;> simp [h]
  have hof : ¬out.kind = .f := by simp [hb]
  have hir : ¬(iMin out ≤ mn ∧ mx ≤ iMax out) := by
    rintro ⟨h1, -⟩
    rw [iMin_u out hb] at h1
    exact absurd hmn (not_lt.mpr h1)
  have hsn : scaling_needed arr out (some (mn, mx)) = .ok true := by
    unfold scaling_needed
    rw [if_neg (by simp [hc]), if_neg hav, if_neg hoc, if_neg hac, if_neg hof]
    show (if mn = 0 ∧ mx = 0 then _ else _) = _
    rw [if_neg h00]
    rcases ha with h | h
    · rw [if_neg (by simp [h]), if_neg hir]
    · rw [if_pos h]
  have hrs : sa_range_scale scaler out mn mx = .err .unsignedSpan := by
    simp only [sa_range_scale]
    rw [if_pos hb, if_pos ⟨hmn, hmx⟩]
  unfold sa_calc
  rw [hsn]
  show sa_do_scaling arr out scaler mn mx = _
  unfold sa_do_scaling
  rcases ha with h | h
  · have hnf : ¬(out.kind = .u ∧ mx ≤ 0 ∧ |mn| ≤ (sharedRange scaler out).2) := by
      rintro ⟨-, h2, -⟩
      exact absurd hmx (not_lt.mpr h2)
    rw [if_neg (by simp [h]), if_neg hir, if_neg hnf]
    exact hrs
  · rw [if_pos h]
    exact hrs

/-- Claim C6 witness: int8 range (-1, 1) into uint8 with the slope-only
writer raises the unsigned-span error. -/
theorem sa_unsigned_span_error_witness :
    sa_calc ⟨.i, 1⟩ ⟨.u, 1⟩ ⟨.f, 4⟩ (some (-1, 1)) = .err .unsignedSpan :=
  sa_unsigned_span_error ⟨.i, 1⟩ ⟨.u, 1⟩ ⟨.f, 4⟩ (-1) 1 (Or.inl rfl) rfl
    (by decide) (by decide)

/-- Claim C7 counterexample: a void dtype written to the identical void
dtype passes the np.can_cast test, so scaling_needed returns false and
does not raise IncompatibleKinds, contradicting the claim that an
opaque/structured kind always fails regardless of the values. -/
theorem scaling_needed_void_identity_ok :
    scaling_needed ⟨.v, 8⟩ ⟨.v, 8⟩ none = .ok false ∧
    scaling_needed ⟨.v, 8⟩ ⟨.v, 8⟩ none ≠ .err .incompatibleKinds := by
  decide

/-- Claim C7 amended: whenever numpy cannot cast the source dtype to the
target dtype losslessly (so the first decision step does not apply), a
void/structured kind on either side makes scaling_needed fail with
IncompatibleKinds, regardless of the finite range. -/
theorem scaling_needed_void_error (arr out : DType) (rng : Option (ℚ × ℚ))
    (hv : arr.kind = .v ∨ out.kind = .v) (hc : canCast arr out = false) :
    scaling_needed arr out rng = .err .incompatibleKinds := by
  unfold scaling_needed
  rw [if_neg (by simp [hc]), if_pos hv]

/-- Claim C7 witness: void source into int8. -/
theorem scaling_needed_void_error_witness :
    scaling_needed ⟨.v, 8⟩ ⟨.i, 1⟩ none = .err .incompatibleKinds :=
  scaling_needed_void_error ⟨.v, 8⟩ ⟨.i, 1⟩ none (Or.inl rfl) (by decide)

/-- Claim C8: the uint8 range (0, 255) written to int8 by the
slope-and-intercept writer with the default 32-bit scaler yields slope 1.0
and inter 128. -/
theorem uint8_span_255_slope_inter :
    si_calc ⟨.u, 1⟩ ⟨.i, 1⟩ ⟨.f, 4⟩ (some (0, 255)) =
      .ok (.fin 1, .fin 128) := by
  norm_num [si_calc, scaling_needed, canCast, intToFloatOK, si_do_scaling,
    si_range_scale, sharedRange, iMin, iMax, fMax, fTiny, toScaler, isFinite,
    max_def, min_def]
  rfl

/-- Claim C9: make_array_writer compares has_intercept with the boolean
True by equality, so a truthy value different from 1 combined with
has_slope = False skips the capability-mismatch error and returns a
SlopeInterArrayWriter. -/
theorem make_array_writer_truthy_intercept (hi : ℤ) (h0 : hi ≠ 0)
    (h1 : hi ≠ 1) : make_array_writer hi 0 = .ok .slopeInterWriter := by
  unfold make_array_writer
  rw [if_neg (by rintro ⟨h, -⟩; exact h1 h), if_pos h0]

/-- Claim C9 witness: has_intercept = 2 with has_slope = False. -/
theorem make_array_writer_truthy_intercept_witness :
    make_array_writer 2 0 = .ok .slopeInterWriter :=
  make_array_writer_truthy_intercept 2 (by decide) (by decide)

/-- Claim C10: for a floating-point source and an integer target with no
finite element, _writing_range hands the bounds (0, 0) to the sink, not
the infinite sentinel. -/
theorem writing_range_no_finite_zero (arr out : DType)
    (hf : arr.kind = .f) (hio : out.kind = .i ∨ out.kind = .u) :
    writing_range arr out none = some (0, 0) := by
  unfold writing_range
  rw [if_pos ⟨hio, hf⟩]

/-- Claim C10 witness: float64 source, int16 target. -/
theorem writing_range_no_finite_zero_witness :
    writing_range ⟨.f, 8⟩ ⟨.i, 2⟩ none = some (0, 0) :=
  writing_range_no_finite_zero ⟨.f, 8⟩ ⟨.i, 2⟩ rfl (Or.inl rfl)

end ArrayWriters
